import Mathlib

set_option autoImplicit false
set_option maxRecDepth 8000

/-!
Shallow embedding of `scgid/scripts/codons.py` (class `Codons`), covering
the gff3 CDS extraction pipeline (`Codons.extract_cds_gff3`), the
mode-conditioned registration performed by `Codons.__init__`, and the
artifact-reuse `check()` step invoked from `Codons.run`.

An annotation file is a list of its lines (without trailing newlines); a
nucleotide collection rekeyed by shortname is an association list from
shortname to the contig's character list.  Python exceptions are embedded
as `Except` errors.
-/

deriving instance DecidableEq for Except

/-- One CDS annotation row's fields, kept as the raw texts of the gff3 line,
exactly as the source stores them in its `CDSChunk` namedtuple
(`spl[3]`, `spl[4]`, `spl[6]`).  The source field name `end` is a Lean
keyword, so it is called `stop` here. -/
structure CDSChunk where
  start : String
  stop : String
  strand : String
  deriving DecidableEq, Repr

/-- The Python exceptions `extract_cds_gff3` can raise, one constructor per
raise site: `line[0]` on an empty line, `spl[2]` on a short line, `spl[8]`
on a CDS row without an attributes column, `s.group(1)` when the gene-id
regex found nothing (`AttributeError`), `nucl.index[shortname]` on a missing
contig (`KeyError`), and `int(...)` on non-numeric text (`ValueError`). -/
inductive GffErr where
  | emptyLine
  | fewFields
  | noAttrField
  | noGeneId
  | missingContig (shortname : String)
  | badInt (text : String)
  deriving DecidableEq, Repr

/-- Association-list lookup keyed by strings, first match wins; this is how
we read the Python dicts of the source (whose keys are unique). -/
def dlookup {β : Type} (k : String) : List (String × β) → Option β
  | [] => none
  | (k', v) :: rest => if k' = k then some v else dlookup k rest

/-- The keys of an association list, in order. -/
def keysOf {β : Type} (m : List (String × β)) : List String :=
  m.map Prod.fst

/-- Python `s.split(sep)` for a one-character separator: split at every
occurrence, keeping empty pieces, so the empty string splits to `[[]]`. -/
def splitOnChar (sep : Char) : List Char → List (List Char)
  | [] => [[]]
  | c :: cs =>
    if c = sep then [] :: splitOnChar sep cs
    else
      match splitOnChar sep cs with
      | [] => [[c]]
      | h :: t => (c :: h) :: t

/-- `sep.join(pieces)`. -/
def joinSep (sep : Char) : List (List Char) → List Char
  | [] => []
  | x :: xs =>
    match xs with
    | [] => x
    | _ :: _ => x ++ sep :: joinSep sep xs

/-- `'_'.join( s.split('_')[0:2] )` of the source: the contig shortname. -/
def shortnameOf (s : String) : String :=
  String.mk (joinSep '_' ((splitOnChar '_' s.toList).take 2))

/-- `line.split('\t')` of the source. -/
def fieldsOf (l : String) : List String :=
  (splitOnChar '\t' l.toList).map String.mk

/-- Field access `spl[i]`, defaulted; every use is guarded by a length test
that mirrors the corresponding Python `IndexError`. -/
def fld (l : String) (i : Nat) : String :=
  (fieldsOf l).getD i ""

/-- Attempted match of the regex `[.](g[0-9]+)[.]` at the head of `l`:
a literal dot, a `g`, a maximal nonempty digit run, then a literal dot;
returns group 1. -/
def matchGAt (l : List Char) : Option String :=
  match l with
  | '.' :: 'g' :: rest =>
    match rest.takeWhile Char.isDigit, rest.dropWhile Char.isDigit with
    | [], _ => none
    | ds, '.' :: _ => some (String.mk ('g' :: ds))
    | _, _ => none
  | _ => none

/-- `re.search("[.](g[0-9]+)[.]", s)`: leftmost match of `matchGAt`. -/
def searchG : List Char → Option String
  | [] => none
  | c :: cs => (matchGAt (c :: cs)).orElse (fun _ => searchG cs)

/-- Value of a digit run, most significant digit first. -/
def digitsVal (l : List Char) : Nat :=
  l.foldl (fun a c => a * 10 + (c.toNat - 48)) 0

/-- A nonempty all-digit run parses, anything else does not. -/
def digitsToNat (l : List Char) : Option Nat :=
  if l ≠ [] ∧ l.all Char.isDigit then some (digitsVal l) else none

/-- Python `int(s)` on the texts this pipeline feeds it: an optional sign
followed by digits; any other text raises `ValueError`, embedded as `none`. -/
def pyInt (s : String) : Option Int :=
  match s.toList with
  | '-' :: rest => (digitsToNat rest).map (fun n => -(n : Int))
  | '+' :: rest => (digitsToNat rest).map (fun n => (n : Int))
  | l => (digitsToNat l).map (fun n => (n : Int))

/-- Normalisation of one Python slice bound: negative indices count from the
end (clamped at 0), non-negative ones are clamped at the length. -/
def pyIndexClamp (len : Nat) (i : Int) : Nat :=
  if i < 0 then ((len : Int) + i).toNat else min i.toNat len

/-- Python string slicing `s[a:b]` (total, clamping, possibly empty). -/
def pySlice (s : List Char) (a b : Int) : List Char :=
  (s.drop (pyIndexClamp s.length a)).take (pyIndexClamp s.length b - pyIndexClamp s.length a)

/-- Modelled from the spec: `revcomp` lives in `scripts/sequence.py`, which
is not part of the sources given; the spec states it reverse-complements a
nucleotide string over {A,C,G,T} and is involutive.  Complement of one
base; characters outside {A,C,G,T} are left unchanged. -/
def complement (c : Char) : Char :=
  if c = 'A' then 'T'
  else if c = 'T' then 'A'
  else if c = 'C' then 'G'
  else if c = 'G' then 'C'
  else c

/-- Modelled from the spec: reverse complement of a nucleotide string. -/
def revcomp (s : List Char) : List Char :=
  s.reverse.map complement

/-- `contig_chunks` of the source: shortname → pid → CDS chunks, Python
dicts embedded as insertion-ordered association lists. -/
abbrev ChunkMap : Type :=
  List (String × List (String × List CDSChunk))

/-- Append `ch` to the chunk list of `pid`, creating the entry at the end
if absent (Python dict insertion semantics of lines 129-137). -/
def appendChunk : List (String × List CDSChunk) → String → CDSChunk → List (String × List CDSChunk)
  | [], pid, ch => [(pid, [ch])]
  | (p, cs) :: rest, pid, ch =>
    if p = pid then (p, cs ++ [ch]) :: rest
    else (p, cs) :: appendChunk rest pid ch

/-- Record one CDS row in `contig_chunks`: update the shortname's group in
place, or append a fresh group at the end. -/
def addRow : ChunkMap → String → String → CDSChunk → ChunkMap
  | [], sn, pid, ch => [(sn, [(pid, [ch])])]
  | (s, pids) :: rest, sn, pid, ch =>
    if s = sn then (s, appendChunk pids pid ch) :: rest
    else (s, pids) :: addRow rest sn pid ch

/-- `line[0] == "#"` test of the source (false on the empty line, where
the source raises instead; the raise is modelled in `processLine`). -/
def startsHash (l : String) : Bool :=
  match l.toList with
  | [] => false
  | c :: _ => decide (c = '#')

/-- The shortname of a row (`'_'.join(spl[0].split('_')[0:2])`). -/
def rowShortname (l : String) : String :=
  shortnameOf (fld l 0)

/-- The chunk a CDS row contributes (`CDSChunk(spl[3], spl[4], spl[6])`). -/
def chunkOf (l : String) : CDSChunk :=
  ⟨fld l 3, fld l 4, fld l 6⟩

/-- Group 1 of the gene-id regex on the attributes field, defaulted; every
use is guarded by the success of `searchG`. -/
def pidOf (l : String) : String :=
  (searchG (fld l 8).toList).getD ""

/-- One iteration of the parsing loop of `extract_cds_gff3` (lines 111-137):
skip comments, drop non-CDS rows, group a CDS row's chunk under its
shortname and pid; each guard mirrors a Python raise. -/
def processLine (m : ChunkMap) (l : String) : Except GffErr ChunkMap :=
  match l.toList with
  | [] => .error .emptyLine
  | c :: _ =>
    if c = '#' then .ok m
    else if (fieldsOf l).length < 3 then .error .fewFields
    else if fld l 2 = "CDS" then
      if (fieldsOf l).length < 9 then .error .noAttrField
      else
        match searchG (fld l 8).toList with
        | none => .error .noGeneId
        | some pid => .ok (addRow m (rowShortname l) pid (chunkOf l))
    else .ok m

/-- The whole parsing loop, folding `processLine` over the file's lines. -/
def parseGff3 (m : ChunkMap) : List String → Except GffErr ChunkMap
  | [] => .ok m
  | l :: rest => do
    let m' ← processLine m l
    parseGff3 m' rest

/-- Lines 150-166 for one chunk: a zero-length chunk (`start == end` as raw
text) contributes nothing, otherwise the contig is fetched
(`nucl.index[shortname]`, KeyError when absent), the coordinate texts are
converted by `int`, the contig is sliced at `[int(start)-1 : int(end)]` and
reverse-complemented on the minus strand. -/
def processChunk (sn : String) (seq? : Option (List Char)) (ch : CDSChunk) : Except GffErr (List Char) :=
  if ch.start = ch.stop then .ok []
  else
    match seq? with
    | none => .error (.missingContig sn)
    | some s =>
      match pyInt ch.start with
      | none => .error (.badInt ch.start)
      | some a =>
        match pyInt ch.stop with
        | none => .error (.badInt ch.stop)
        | some b =>
          let sl := pySlice s (a - 1) b
          .ok (if ch.strand = "-" then revcomp sl else sl)

/-- `gene_cds` accumulation over one gene's chunks (lines 148-166). -/
def geneCds (sn : String) (seq? : Option (List Char)) (acc : List Char) : List CDSChunk → Except GffErr (List Char)
  | [] => .ok acc
  | ch :: rest => do
    let s ← processChunk sn seq? ch
    geneCds sn seq? (acc ++ s) rest

/-- `contig_cds_cat` accumulation over one contig's genes (lines 144-171):
a gene is appended whole when its length is divisible by 3 and dropped
whole otherwise. -/
def contigCat (sn : String) (seq? : Option (List Char)) (acc : List Char) : List (String × List CDSChunk) → Except GffErr (List Char)
  | [] => .ok acc
  | (_, chunks) :: rest => do
    let g ← geneCds sn seq? [] chunks
    contigCat sn seq? (if g.length % 3 = 0 then acc ++ g else acc) rest

/-- The reconstruction loop over contigs (lines 139-175): a contig's
concatenate is recorded only when it is nonempty. -/
def reconstructAll (nucl : List (String × List Char)) (acc : List (String × List Char)) : ChunkMap → Except GffErr (List (String × List Char))
  | [] => .ok acc
  | (sn, pids) :: rest => do
    let cat ← contigCat sn (dlookup sn nucl) [] pids
    reconstructAll nucl (if cat.length ≠ 0 then acc ++ [(sn, cat)] else acc) rest

/-- `Codons.extract_cds_gff3`: parse the annotation lines into
`contig_chunks`, then build the per-contig CDS concatenates; the returned
association list stands for the `DNASequenceCollection` of
`CDSConcatenate`s keyed by shortname. -/
def extract_cds_gff3 (lines : List String) (nucl : List (String × List Char)) : Except GffErr (List (String × List Char)) := do
  let m ← parseGff3 [] lines
  reconstructAll nucl [] m

/-- What `Codons.__init__` registers: the argument names of the reusable
outputs and the `(tool, argument)` pairs of the case dependencies. -/
structure InitState where
  reusables : List String
  deps : List (String × String)
  deriving DecidableEq, Repr

/-- The mode dispatch of `Codons.__init__` (lines 22-79): the gff3 artifact
and the augustus dependency are always registered; mode `"blastp"` adds the
spdb blast artifact and the blastp dependency, mode `"blastn"` adds the nt
blast artifact and the blastn dependency, and any other mode prints
`Bad mode selection.` and calls `sys.exit(1)`, embedded as `.error 1`
carrying the exit status. -/
def codonsInit (mode : String) : Except Nat InitState :=
  let base : InitState := ⟨["gff3"], [("augustus", "gff3")]⟩
  if mode = "blastp" then
    .ok ⟨base.reusables ++ ["blastout"], base.deps ++ [("blastp", "blastout")]⟩
  else if mode = "blastn" then
    .ok ⟨base.reusables ++ ["blastout"], base.deps ++ [("blastn", "blastout")]⟩
  else
    .error 1

/-- Modelled from the spec: the artifact cache (`ReusableOutput`,
`ReusableOutputManager`) lives in `scripts/reuse.py`, which is not among
the sources given; this structure follows spec section 4.1.  A spec
declares the configuration argument it binds, its filename pattern (the
three patterns registered by `Codons.__init__` are all suffix regexes of
the shape `.*X$`, so a pattern is embedded as the suffix it requires), and
the output path its generator is declared to produce. -/
structure ArtifactSpec where
  arg : String
  patternSuffix : String
  outpath : String
  deriving DecidableEq, Repr

/-- Modelled from the spec: a working-directory filename matches the
artifact's pattern. -/
def matchesPattern (sp : ArtifactSpec) (f : String) : Bool :=
  sp.patternSuffix.toList.isSuffixOf f.toList

/-- Modelled from the spec: the state `check()` works on — the
configuration bindings and the generators invoked so far. -/
structure CheckState where
  config : List (String × String)
  invoked : List String
  deriving DecidableEq, Repr

/-- Modelled from the spec: the failure of `check()` when a pattern is
ambiguous in the working directory. -/
inductive CheckErr where
  | ambiguousArtifact (arg : String)
  deriving DecidableEq, Repr

/-- Modelled from the spec (section 4.1): resolution of one ArtifactSpec
by `check()`.  An explicitly supplied argument skips pattern search and
generation; exactly one match binds the argument to the matched file;
zero matches invoke the generator and bind the declared output path; more
than one match fails with AmbiguousArtifact. -/
def checkOne (dir : List String) (st : CheckState) (sp : ArtifactSpec) : Except CheckErr CheckState :=
  if (dlookup sp.arg st.config).isSome then .ok st
  else
    match dir.filter (matchesPattern sp) with
    | [f] => .ok ⟨st.config ++ [(sp.arg, f)], st.invoked⟩
    | [] => .ok ⟨st.config ++ [(sp.arg, sp.outpath)], st.invoked ++ [sp.arg]⟩
    | _ => .error (.ambiguousArtifact sp.arg)

/-- Modelled from the spec: `ReusableOutputManager.check()` resolves every
registered spec in registration order. -/
def managerCheck (dir : List String) (st : CheckState) : List ArtifactSpec → Except CheckErr CheckState
  | [] => .ok st
  | sp :: rest => do
    let st' ← checkOne dir st sp
    managerCheck dir st' rest

/-- A line that the parsing loop of `extract_cds_gff3` records: nonempty,
not a comment, at least three tab-separated fields, feature type `CDS`. -/
def isCDSRow (l : String) : Bool :=
  match l.toList with
  | [] => false
  | c :: _ =>
    if c = '#' then false
    else decide (3 ≤ (fieldsOf l).length) && decide (fld l 2 = "CDS")

/-- The CDS rows belonging to contig `c`: the rows grouped under shortname
`c` by the parsing loop. -/
def rowFor (c : String) (l : String) : Bool :=
  isCDSRow l && decide (rowShortname l = c)

/-- The effect of one recorded CDS row on its own contig's group. -/
def cGroupStep (g : Option (List (String × List CDSChunk))) (l : String) : Option (List (String × List CDSChunk)) :=
  some (appendChunk (g.getD []) (pidOf l) (chunkOf l))

/-- The reconstruction outcome for one contig's group: the concatenate when
it is nonempty, nothing when it is empty (or when reconstruction of this
contig raises, a case that cannot coexist with a successful run). -/
def contigResult (seq? : Option (List Char)) (c : String) (pids : List (String × List CDSChunk)) : Option (List Char) :=
  match contigCat c seq? [] pids with
  | .ok cat => if cat.length ≠ 0 then some cat else none
  | .error _ => none

/-- The whole successful-reconstruction result as a pure function of
`contig_chunks` and the sequence collection. -/
def resultOf (nucl : List (String × List Char)) : ChunkMap → List (String × List Char)
  | [] => []
  | (sn, pids) :: rest =>
    match contigResult (dlookup sn nucl) sn pids with
    | some cat => (sn, cat) :: resultOf nucl rest
    | none => resultOf nucl rest

/-- Some chunk of some gene in the group has `start != end` (such a chunk
forces the contig lookup `nucl.index[shortname]`). -/
def hasNonzeroChunk (pids : List (String × List CDSChunk)) : Bool :=
  pids.any (fun p => p.2.any (fun ch => decide (ch.start ≠ ch.stop)))

/-- `hasNonzeroChunk` lifted to an optional group. -/
def optBad (g : Option (List (String × List CDSChunk))) : Bool :=
  match g with
  | some pids => hasNonzeroChunk pids
  | none => false

/-! ### Helper lemmas -/

theorem dlookup_append_right {β : Type} (k : String) (l₁ l₂ : List (String × β))
    (h : dlookup k l₁ = none) : dlookup k (l₁ ++ l₂) = dlookup k l₂ := by
  induction l₁ with
  | nil => rfl
  | cons e rest ih =>
    obtain ⟨k', v⟩ := e
    by_cases hk : k' = k
    · simp [dlookup, hk] at h
    · simp only [dlookup, if_neg hk] at h
      simpa [dlookup, if_neg hk] using ih h

/-! ### Claim theorems -/

/-- C3: a fragment whose start text equals its end text is skipped before
the contig fetch, the slicing and the reverse-complement, contributing
zero bases to `gene_cds`. -/
theorem zero_length_chunk_contributes_nothing
    (sn : String) (seq? : Option (List Char)) (ch : CDSChunk)
    (h : ch.start = ch.stop) :
    processChunk sn seq? ch = .ok [] := by
  unfold processChunk
  rw [if_pos h]

/-- Witness for C3: the chunk `(5, 5)` contributes nothing even when its
contig is absent from the collection, since the skip precedes the fetch. -/
theorem zero_length_chunk_contributes_nothing_witness :
    processChunk "c_1" none ⟨"5", "5", "+"⟩ = .ok [] :=
  zero_length_chunk_contributes_nothing "c_1" none ⟨"5", "5", "+"⟩ rfl

/-- C5: `Codons.__init__` exits with status 1 (non-zero) on any mode other
than `"blastp"` and `"blastn"`, during construction and hence before any
pipeline stage of `run`; the two accepted modes do not exit. -/
theorem bad_mode_exits_nonzero :
    (∀ mode : String, mode ≠ "blastp" → mode ≠ "blastn" →
      codonsInit mode = .error 1 ∧ (1 : Nat) ≠ 0) ∧
    (∀ mode : String, mode = "blastp" ∨ mode = "blastn" →
      ∃ st : InitState, codonsInit mode = .ok st) := by
  constructor
  · intro mode h1 h2
    refine ⟨?_, by decide⟩
    unfold codonsInit
    rw [if_neg h1, if_neg h2]
  · intro mode h
    rcases h with h | h <;> subst h <;> exact ⟨_, rfl⟩

/-- Witness for C5 at modes `"tblastx"` and `"blastp"`. -/
theorem bad_mode_exits_nonzero_witness :
    (codonsInit "tblastx" = .error 1 ∧ (1 : Nat) ≠ 0) ∧
    ∃ st : InitState, codonsInit "blastp" = .ok st :=
  ⟨bad_mode_exits_nonzero.1 "tblastx" (by decide) (by decide),
   bad_mode_exits_nonzero.2 "blastp" (Or.inl rfl)⟩

/-- C8: when the argument is not already bound (not explicitly supplied)
and exactly one working-directory file matches the artifact's pattern,
`check()` binds the argument to that file and leaves the set of invoked
generators unchanged — in particular a second `check()` after a run that
produced the artifact reuses it and re-invokes no generator. -/
theorem artifact_cache_idempotent
    (dir : List String) (st : CheckState) (sp : ArtifactSpec) (f : String)
    (hunbound : dlookup sp.arg st.config = none)
    (hmatch : dir.filter (matchesPattern sp) = [f]) :
    checkOne dir st sp = .ok ⟨st.config ++ [(sp.arg, f)], st.invoked⟩ ∧
    dlookup sp.arg (st.config ++ [(sp.arg, f)]) = some f := by
  constructor
  · unfold checkOne
    rw [hunbound, hmatch]
    rfl
  · rw [dlookup_append_right _ _ _ hunbound]
    simp [dlookup]

/-- Witness for C8: the gff3 artifact is already on disk, the second
`check()` binds it and invokes nothing. -/
theorem artifact_cache_idempotent_witness :
    checkOne ["scgid.aug.out.gff3", "notes.txt"] ⟨[], []⟩
        ⟨"gff3", ".aug.out.gff3", "scgid.aug.out.gff3"⟩ =
      .ok ⟨[("gff3", "scgid.aug.out.gff3")], []⟩ :=
  (artifact_cache_idempotent ["scgid.aug.out.gff3", "notes.txt"] ⟨[], []⟩
    ⟨"gff3", ".aug.out.gff3", "scgid.aug.out.gff3"⟩ "scgid.aug.out.gff3"
    rfl (by decide)).1

/-- C9: the zero-length test compares the raw texts of the start and end
fields, so a fragment whose texts are numerically equal but textually
different is not skipped and contributes exactly the one base at 0-based
index start-1 (reverse-complemented on the minus strand). -/
theorem textual_zero_length_test
    (sn : String) (s : List Char) (ch : CDSChunk) (k : Nat)
    (hne : ch.start ≠ ch.stop)
    (ha : pyInt ch.start = some ((k : Int) + 1))
    (hb : pyInt ch.stop = some ((k : Int) + 1))
    (hk : k < s.length) :
    processChunk sn (some s) ch =
      .ok (if ch.strand = "-" then revcomp [s.getD k 'A'] else [s.getD k 'A']) := by
  unfold processChunk
  rw [if_neg hne]
  simp only [ha, hb]
  have hslice : pySlice s ((k : Int) + 1 - 1) ((k : Int) + 1) = [s.getD k 'A'] := by
    unfold pySlice pyIndexClamp
    rw [if_neg (by omega : ¬ ((k : Int) + 1 - 1 < 0)),
        if_neg (by omega : ¬ ((k : Int) + 1 < 0)),
        (by omega : ((k : Int) + 1 - 1).toNat = k),
        (by omega : ((k : Int) + 1).toNat = k + 1),
        (by omega : min k s.length = k),
        (by omega : min (k + 1) s.length = k + 1),
        (by omega : k + 1 - k = 1)]
    rw [List.getD_eq_getElem s 'A' hk, List.drop_eq_getElem_cons hk]
    rfl
  rw [hslice]

/-- Witness for C9: start text `"5"`, end text `"05"`, both the number 5,
on contig `"ACGTACGT"`: one base, the `'A'` at index 4. -/
theorem textual_zero_length_test_witness :
    processChunk "c_1" (some "ACGTACGT".toList) ⟨"5", "05", "+"⟩ = .ok ['A'] := by
  have h := textual_zero_length_test "c_1" ("ACGTACGT".toList) ⟨"5", "05", "+"⟩ 4
    (by decide) (by decide) (by decide) (by decide)
  rw [h]
  decide

/-- C4: on a CDS row that has an attributes field, gene-id extraction
fails (the `AttributeError` the spec's taxonomy calls
MalformedAnnotationError) exactly when the attributes contain no token
matching `.g<digits>.`; when the pattern matches, the row is recorded in
`contig_chunks` and nothing is raised. -/
theorem gene_id_extraction
    (m : ChunkMap) (l : String) (c : Char) (cs : List Char)
    (hl : l.toList = c :: cs) (hc : c ≠ '#')
    (hn : 9 ≤ (fieldsOf l).length) (hcds : fld l 2 = "CDS") :
    (searchG (fld l 8).toList = none → processLine m l = .error .noGeneId) ∧
    (∀ pid, searchG (fld l 8).toList = some pid →
      processLine m l = .ok (addRow m (rowShortname l) pid (chunkOf l))) := by
  have hbody : processLine m l =
      match searchG (fld l 8).toList with
      | none => .error .noGeneId
      | some pid => .ok (addRow m (rowShortname l) pid (chunkOf l)) := by
    unfold processLine
    simp only [hl]
    rw [if_neg hc, if_neg (by omega : ¬ (fieldsOf l).length < 3), if_pos hcds,
        if_neg (by omega : ¬ (fieldsOf l).length < 9)]
  constructor
  · intro h
    rw [hbody, h]
  · intro pid h
    rw [hbody, h]

/-- Witness for C4: one row whose attributes hold `.g1.` is recorded, one
whose attributes hold no such token fails extraction. -/
theorem gene_id_extraction_witness :
    processLine [] "contigA_1\taug\tCDS\t1\t6\t.\t+\t.\tID=contigA_1.g1.t1" =
      .ok (addRow [] "contigA_1" "g1" ⟨"1", "6", "+"⟩) ∧
    processLine [] "contigA_1\taug\tCDS\t1\t6\t.\t+\t.\tID=nomatch" =
      .error .noGeneId := by
  constructor
  · have h := (gene_id_extraction [] "contigA_1\taug\tCDS\t1\t6\t.\t+\t.\tID=contigA_1.g1.t1"
      'c' ("ontigA_1\taug\tCDS\t1\t6\t.\t+\t.\tID=contigA_1.g1.t1".toList)
      (by decide) (by decide) (by decide) (by decide)).2 "g1" (by decide)
    rw [h]
    decide
  · exact (gene_id_extraction [] "contigA_1\taug\tCDS\t1\t6\t.\t+\t.\tID=nomatch"
      'c' ("ontigA_1\taug\tCDS\t1\t6\t.\t+\t.\tID=nomatch".toList)
      (by decide) (by decide) (by decide) (by decide)).1 (by decide)

/-- C1: a successful contig concatenation step appends each gene's whole
`gene_cds` when its length is divisible by 3 and excludes the gene wholly
(no truncated portion) otherwise: the concatenate is the accumulator
followed by exactly the frame-respecting genes, in gene order. -/
theorem frame_filter_whole_genes
    (sn : String) (seq? : Option (List Char)) (pids : List (String × List CDSChunk))
    (acc cat : List Char)
    (h : contigCat sn seq? acc pids = .ok cat) :
    ∃ gs : List (List Char),
      pids.map (fun p => geneCds sn seq? [] p.2) = gs.map Except.ok ∧
      cat = acc ++ (gs.map (fun g => if g.length % 3 = 0 then g else [])).flatten := by
  induction pids generalizing acc with
  | nil =>
    refine ⟨[], rfl, ?_⟩
    simp only [contigCat, Except.ok.injEq] at h
    subst h
    simp
  | cons p rest ih =>
    obtain ⟨pid, chunks⟩ := p
    simp only [contigCat, bind, Except.bind] at h
    cases hg : geneCds sn seq? [] chunks with
    | error e =>
      rw [hg] at h
      exact absurd h (by simp)
    | ok g =>
      rw [hg] at h
      obtain ⟨gs, hmap, hcat⟩ := ih _ h
      refine ⟨g :: gs, ?_, ?_⟩
      · simp [hmap, hg]
      · by_cases h3 : g.length % 3 = 0
        · rw [if_pos h3] at hcat
          simp [h3, hcat]
        · rw [if_neg h3] at hcat
          simp [h3, hcat]

/-- Witness for C1 on the spec's Scenario 2 shape: a 6-base gene is
appended whole, a 8-base gene (not divisible by 3) is wholly dropped. -/
theorem frame_filter_whole_genes_witness :
    ∃ gs : List (List Char),
      ([("g1", [⟨"1", "6", "+"⟩]), ("g2", [⟨"1", "8", "+"⟩])] :
          List (String × List CDSChunk)).map
          (fun p => geneCds "c_1" (some "AAAAAACCCCGGGGGG".toList) [] p.2) =
        gs.map Except.ok ∧
      "AAAAAA".toList =
        [] ++ (gs.map (fun g => if g.length % 3 = 0 then g else [])).flatten :=
  frame_filter_whole_genes "c_1" (some "AAAAAACCCCGGGGGG".toList)
    [("g1", [⟨"1", "6", "+"⟩]), ("g2", [⟨"1", "8", "+"⟩])] [] ("AAAAAA".toList)
    (by decide)

/-- C2 (amended): a fragment whose start text differs from its end text
contributes exactly the Python slice `[int(start)-1 : int(end)]` of the
owning contig, reverse-complemented when the strand is `-`; and on the
spec's Scenario 1 input — gene "contigA_1.g1.t1", strand '+', fragments
(1,6) and (10,15) of contig "contigA_1" = "AAAAAACCCCGGGGGG" — the
reconstructed gene_cds is "AAAAAACGGGGG" (1-based position 10 is the last
'C'), of length 12, divisible by 3, so the gene is retained. -/
theorem fragment_contribution :
    (∀ (sn : String) (s : List Char) (ch : CDSChunk) (a b : Int),
      ch.start ≠ ch.stop → pyInt ch.start = some a → pyInt ch.stop = some b →
      processChunk sn (some s) ch =
        .ok (if ch.strand = "-" then revcomp (pySlice s (a - 1) b)
             else pySlice s (a - 1) b)) ∧
    extract_cds_gff3
        ["contigA_1\taug\tCDS\t1\t6\t.\t+\t.\tID=contigA_1.g1.t1",
         "contigA_1\taug\tCDS\t10\t15\t.\t+\t.\tID=contigA_1.g1.t1"]
        [("contigA_1", "AAAAAACCCCGGGGGG".toList)] =
      .ok [("contigA_1", "AAAAAACGGGGG".toList)] := by
  constructor
  · intro sn s ch a b hne ha hb
    unfold processChunk
    rw [if_neg hne]
    simp only [ha, hb]
  · decide

/-- Witness for C2: the fragment (10,15) of "AAAAAACCCCGGGGGG" contributes
the slice [9,15) = "CGGGGG". -/
theorem fragment_contribution_witness :
    processChunk "contigA_1" (some "AAAAAACCCCGGGGGG".toList) ⟨"10", "15", "+"⟩ =
      .ok "CGGGGG".toList := by
  have h := fragment_contribution.1 "contigA_1" ("AAAAAACCCCGGGGGG".toList)
    ⟨"10", "15", "+"⟩ 10 15 (by decide) (by decide) (by decide)
  rw [h]
  decide

/-- Counterexample for C2 as stated: on the claim's own input the
reconstructed gene_cds is "AAAAAACGGGGG", not "AAAAAAGGGGGG" (1-based
coordinate 10 of "AAAAAACCCCGGGGGG" is a 'C', not a 'G'). -/
theorem fragment_contribution_counterexample :
    geneCds "contigA_1" (some "AAAAAACCCCGGGGGG".toList) []
        [⟨"1", "6", "+"⟩, ⟨"10", "15", "+"⟩] = .ok "AAAAAACGGGGG".toList ∧
    geneCds "contigA_1" (some "AAAAAACCCCGGGGGG".toList) []
        [⟨"1", "6", "+"⟩, ⟨"10", "15", "+"⟩] ≠ .ok "AAAAAAGGGGGG".toList := by
  constructor <;> decide

theorem dlookup_eq_none {β : Type} (c : String) (m : List (String × β))
    (h : c ∉ keysOf m) : dlookup c m = none := by
  induction m with
  | nil => rfl
  | cons e rest ih =>
    obtain ⟨k, v⟩ := e
    rw [show keysOf ((k, v) :: rest) = k :: keysOf rest from rfl,
        List.mem_cons, not_or] at h
    show (if k = c then some v else dlookup c rest) = none
    rw [if_neg (fun hk : k = c => h.1 hk.symm)]
    exact ih h.2

theorem dlookup_resultOf_none (nucl : List (String × List Char)) (m : ChunkMap)
    (c : String) (h : c ∉ keysOf m) : dlookup c (resultOf nucl m) = none := by
  induction m with
  | nil => rfl
  | cons e rest ih =>
    obtain ⟨sn, pids⟩ := e
    rw [show keysOf ((sn, pids) :: rest) = sn :: keysOf rest from rfl,
        List.mem_cons, not_or] at h
    have ihr := ih h.2
    cases hcr : contigResult (dlookup sn nucl) sn pids with
    | none => simpa [resultOf, hcr] using ihr
    | some cat =>
      simp only [resultOf, hcr]
      show (if sn = c then some cat else dlookup c (resultOf nucl rest)) = none
      rw [if_neg (fun hk : sn = c => h.1 hk.symm)]
      exact ihr

theorem reconstructAll_ok (nucl : List (String × List Char)) (m : ChunkMap) :
    ∀ (acc r : List (String × List Char)), reconstructAll nucl acc m = .ok r →
      r = acc ++ resultOf nucl m := by
  induction m with
  | nil =>
    intro acc r h
    simp only [reconstructAll, Except.ok.injEq] at h
    subst h
    simp [resultOf]
  | cons e rest ih =>
    intro acc r h
    obtain ⟨sn, pids⟩ := e
    simp only [reconstructAll, bind, Except.bind] at h
    cases hc : contigCat sn (dlookup sn nucl) [] pids with
    | error ex =>
      rw [hc] at h
      exact absurd h (by simp)
    | ok cat =>
      rw [hc] at h
      have hr := ih _ _ h
      have hcr : contigResult (dlookup sn nucl) sn pids =
          if cat.length ≠ 0 then some cat else none := by
        unfold contigResult
        rw [hc]
      by_cases hlen : cat.length ≠ 0
      · rw [if_pos hlen] at hr
        simp only [resultOf, hcr, if_pos hlen]
        rw [hr]
        simp
      · rw [if_neg hlen] at hr
        simp only [resultOf, hcr, if_neg hlen]
        exact hr

theorem dlookup_resultOf (nucl : List (String × List Char)) (m : ChunkMap) (c : String)
    (hnd : (keysOf m).Nodup) :
    dlookup c (resultOf nucl m) =
      (dlookup c m).bind (fun pids => contigResult (dlookup c nucl) c pids) := by
  induction m with
  | nil => rfl
  | cons e rest ih =>
    obtain ⟨sn, pids⟩ := e
    simp only [keysOf, List.map_cons, List.nodup_cons] at hnd
    by_cases hsn : sn = c
    · subst hsn
      have hR : dlookup sn ((sn, pids) :: rest) = some pids := by
        show (if sn = sn then some pids else dlookup sn rest) = some pids
        rw [if_pos rfl]
      rw [hR]
      show dlookup sn (resultOf nucl ((sn, pids) :: rest)) =
        contigResult (dlookup sn nucl) sn pids
      cases hcr : contigResult (dlookup sn nucl) sn pids with
      | some cat =>
        simp only [resultOf, hcr]
        show (if sn = sn then some cat else dlookup sn (resultOf nucl rest)) = some cat
        rw [if_pos rfl]
      | none =>
        simp only [resultOf, hcr]
        exact dlookup_resultOf_none nucl rest sn hnd.1
    · have hR : dlookup c ((sn, pids) :: rest) = dlookup c rest := by
        show (if sn = c then some pids else dlookup c rest) = dlookup c rest
        rw [if_neg hsn]
      rw [hR]
      cases hcr : contigResult (dlookup sn nucl) sn pids with
      | some cat =>
        simp only [resultOf, hcr]
        show (if sn = c then some cat else dlookup c (resultOf nucl rest)) =
          (dlookup c rest).bind fun pids => contigResult (dlookup c nucl) c pids
        rw [if_neg hsn]
        exact ih hnd.2
      | none =>
        simp only [resultOf, hcr]
        exact ih hnd.2

theorem keysOf_resultOf_sublist (nucl : List (String × List Char)) (m : ChunkMap) :
    (keysOf (resultOf nucl m)).Sublist (keysOf m) := by
  induction m with
  | nil => simp [resultOf, keysOf]
  | cons e rest ih =>
    obtain ⟨sn, pids⟩ := e
    cases hcr : contigResult (dlookup sn nucl) sn pids with
    | some cat =>
      simpa [resultOf, hcr, keysOf] using List.Sublist.cons₂ sn ih
    | none =>
      simpa [resultOf, hcr, keysOf] using List.Sublist.cons sn ih

/-- C6 (amended): a successful reconstruction holds exactly one
`CDSConcatenate` per contig whose retained genes concatenate to a nonempty
string, bound to that concatenate; a contig whose retained-gene
concatenation is empty — in particular one whose only retained genes are
empty — is omitted, even though it has a retained gene. -/
theorem concatenate_presence
    (nucl : List (String × List Char)) (m : ChunkMap)
    (r : List (String × List Char)) (c : String)
    (hnd : (keysOf m).Nodup) (h : reconstructAll nucl [] m = .ok r) :
    dlookup c r = (dlookup c m).bind (fun pids => contigResult (dlookup c nucl) c pids) ∧
    (keysOf r).Nodup := by
  have hr := reconstructAll_ok nucl m [] r h
  simp only [List.nil_append] at hr
  subst hr
  exact ⟨dlookup_resultOf nucl m c hnd,
    (keysOf_resultOf_sublist nucl m).nodup hnd⟩

/-- Witness for C6: contig `c_1` (one retained 6-base gene) is present,
contig `c_2` (one 5-base gene, dropped by the frame filter, so an empty
concatenation) is absent. -/
theorem concatenate_presence_witness :
    (dlookup "c_2" [("c_1", "AAAAAA".toList)] =
      (dlookup "c_2" ([("c_1", [("g1", [⟨"1", "6", "+"⟩])]),
                       ("c_2", [("g1", [⟨"1", "5", "+"⟩])])] : ChunkMap)).bind
        (fun pids =>
          contigResult
            (dlookup "c_2" [("c_1", "AAAAAACC".toList), ("c_2", "ACGTACGT".toList)])
            "c_2" pids)) ∧
    (keysOf [("c_1", ("AAAAAA").toList)]).Nodup :=
  concatenate_presence
    [("c_1", "AAAAAACC".toList), ("c_2", "ACGTACGT".toList)]
    [("c_1", [("g1", [⟨"1", "6", "+"⟩])]), ("c_2", [("g1", [⟨"1", "5", "+"⟩])])]
    [("c_1", "AAAAAA".toList)] "c_2" (by decide) (by decide)

/-- Counterexample for C6 as stated: a contig whose single gene has one
zero-length fragment has a retained gene (its empty gene_cds has length
divisible by 3), yet the result of `extract_cds_gff3` omits the contig,
because the code keys the omission on the emptiness of the concatenate,
not on the existence of retained genes. -/
theorem concatenate_presence_counterexample :
    parseGff3 [] ["c_1\taug\tCDS\t5\t5\t.\t+\t.\tID=c_1.g1.t1"] =
      .ok [("c_1", [("g1", [⟨"5", "5", "+"⟩])])] ∧
    geneCds "c_1" (dlookup "c_1" [("c_1", "ACGTACGT".toList)]) [] [⟨"5", "5", "+"⟩] =
      .ok [] ∧
    (List.length ([] : List Char)) % 3 = 0 ∧
    extract_cds_gff3 ["c_1\taug\tCDS\t5\t5\t.\t+\t.\tID=c_1.g1.t1"]
      [("c_1", "ACGTACGT".toList)] = .ok [] := by
  refine ⟨by decide, by decide, by decide, by decide⟩

theorem addRow_cons_eq (rest : ChunkMap) (s sn pid : String)
    (pids : List (String × List CDSChunk)) (ch : CDSChunk) (h : s = sn) :
    addRow ((s, pids) :: rest) sn pid ch = (s, appendChunk pids pid ch) :: rest := by
  simp only [addRow]
  rw [if_pos h]

theorem addRow_cons_ne (rest : ChunkMap) (s sn pid : String)
    (pids : List (String × List CDSChunk)) (ch : CDSChunk) (h : ¬ s = sn) :
    addRow ((s, pids) :: rest) sn pid ch = (s, pids) :: addRow rest sn pid ch := by
  simp only [addRow]
  rw [if_neg h]

theorem dlookup_addRow_self (m : ChunkMap) (sn pid : String) (ch : CDSChunk) :
    dlookup sn (addRow m sn pid ch) =
      some (appendChunk ((dlookup sn m).getD []) pid ch) := by
  induction m with
  | nil =>
    show (if sn = sn then some [(pid, [ch])] else none) = _
    rw [if_pos rfl]
    rfl
  | cons e rest ih =>
    obtain ⟨s, pids⟩ := e
    by_cases hs : s = sn
    · subst hs
      rw [addRow_cons_eq rest s s pid pids ch rfl]
      show (if s = s then some (appendChunk pids pid ch) else _) =
        some (appendChunk (((if s = s then some pids else dlookup s rest)).getD []) pid ch)
      rw [if_pos rfl, if_pos rfl]
      rfl
    · rw [addRow_cons_ne rest s sn pid pids ch hs]
      show (if s = sn then some pids else dlookup sn (addRow rest sn pid ch)) =
        some (appendChunk (((if s = sn then some pids else dlookup sn rest)).getD []) pid ch)
      rw [if_neg hs, if_neg hs]
      exact ih

theorem dlookup_addRow_ne (m : ChunkMap) (sn pid : String) (ch : CDSChunk)
    (c : String) (h : sn ≠ c) :
    dlookup c (addRow m sn pid ch) = dlookup c m := by
  induction m with
  | nil =>
    show (if sn = c then some [(pid, [ch])] else none) = none
    rw [if_neg h]
  | cons e rest ih =>
    obtain ⟨s, pids⟩ := e
    by_cases hs : s = sn
    · subst hs
      rw [addRow_cons_eq rest s s pid pids ch rfl]
      show (if s = c then some (appendChunk pids pid ch) else dlookup c rest) =
        (if s = c then some pids else dlookup c rest)
      rw [if_neg h, if_neg h]
    · rw [addRow_cons_ne rest s sn pid pids ch hs]
      show (if s = c then some pids else dlookup c (addRow rest sn pid ch)) =
        (if s = c then some pids else dlookup c rest)
      by_cases hsc : s = c
      · rw [if_pos hsc, if_pos hsc]
      · rw [if_neg hsc, if_neg hsc]
        exact ih

theorem keysOf_addRow (m : ChunkMap) (sn pid : String) (ch : CDSChunk) :
    keysOf (addRow m sn pid ch) =
      if sn ∈ keysOf m then keysOf m else keysOf m ++ [sn] := by
  induction m with
  | nil =>
    simp only [keysOf, List.map_nil]
    rw [if_neg (List.not_mem_nil sn)]
    rfl
  | cons e rest ih =>
    obtain ⟨s, pids⟩ := e
    simp only [keysOf, List.map_cons] at ih ⊢
    by_cases hs : s = sn
    · subst hs
      rw [addRow_cons_eq rest s s pid pids ch rfl]
      simp only [List.map_cons]
      rw [if_pos (List.mem_cons_self s (List.map Prod.fst rest))]
    · rw [addRow_cons_ne rest s sn pid pids ch hs]
      simp only [List.map_cons]
      rw [ih]
      by_cases hm : sn ∈ List.map Prod.fst rest
      · rw [if_pos hm, if_pos (List.mem_cons_of_mem s hm)]
      · rw [if_neg hm,
          if_neg (show sn ∉ s :: List.map Prod.fst rest by
            rw [List.mem_cons, not_or]
            exact ⟨fun he => hs he.symm, hm⟩)]
        rfl

theorem keysOf_addRow_nodup (m : ChunkMap) (sn pid : String) (ch : CDSChunk)
    (h : (keysOf m).Nodup) : (keysOf (addRow m sn pid ch)).Nodup := by
  rw [keysOf_addRow]
  by_cases hm : sn ∈ keysOf m
  · rw [if_pos hm]
    exact h
  · rw [if_neg hm]
    simp [List.nodup_append, h, hm]

theorem processLine_ok_cases (m : ChunkMap) (l : String) (m' : ChunkMap)
    (h : processLine m l = .ok m') :
    (isCDSRow l = false ∧ m' = m) ∨
    (isCDSRow l = true ∧ searchG (fld l 8).toList = some (pidOf l) ∧
      m' = addRow m (rowShortname l) (pidOf l) (chunkOf l)) := by
  unfold processLine at h
  cases hl : l.toList with
  | nil =>
    rw [hl] at h
    exact absurd h (by simp)
  | cons c cs =>
    simp only [hl] at h
    by_cases hc : c = '#'
    · rw [if_pos hc] at h
      refine Or.inl ⟨?_, (Except.ok.inj h).symm⟩
      unfold isCDSRow
      simp only [hl]
      rw [if_pos hc]
    · rw [if_neg hc] at h
      by_cases h3 : (fieldsOf l).length < 3
      · rw [if_pos h3] at h
        exact absurd h (by simp)
      · rw [if_neg h3] at h
        by_cases hcds : fld l 2 = "CDS"
        · rw [if_pos hcds] at h
          by_cases h9 : (fieldsOf l).length < 9
          · rw [if_pos h9] at h
            exact absurd h (by simp)
          · rw [if_neg h9] at h
            cases hs : searchG (fld l 8).toList with
            | none =>
              rw [hs] at h
              exact absurd h (by simp)
            | some pid =>
              rw [hs] at h
              have hpid : pidOf l = pid := by
                unfold pidOf
                rw [hs]
                rfl
              refine Or.inr ⟨?_, ?_, ?_⟩
              · unfold isCDSRow
                simp only [hl]
                rw [if_neg hc]
                simp only [Bool.and_eq_true, decide_eq_true_eq]
                exact ⟨by omega, hcds⟩
              · rw [hpid]
              · rw [hpid, ← Except.ok.inj h]
        · rw [if_neg hcds] at h
          refine Or.inl ⟨?_, (Except.ok.inj h).symm⟩
          unfold isCDSRow
          simp only [hl]
          rw [if_neg hc]
          simp [hcds]

theorem processLine_nodup (m : ChunkMap) (l : String) (m' : ChunkMap)
    (h : processLine m l = .ok m') (hnd : (keysOf m).Nodup) :
    (keysOf m').Nodup := by
  rcases processLine_ok_cases m l m' h with ⟨_, rfl⟩ | ⟨_, _, rfl⟩
  · exact hnd
  · exact keysOf_addRow_nodup _ _ _ _ hnd

theorem processLine_not_row (m : ChunkMap) (l : String) (m' : ChunkMap) (c : String)
    (h : processLine m l = .ok m') (hrow : rowFor c l = false) :
    dlookup c m' = dlookup c m := by
  rcases processLine_ok_cases m l m' h with ⟨_, rfl⟩ | ⟨hcds, _, rfl⟩
  · rfl
  · have hne : rowShortname l ≠ c := by
      intro he
      rw [rowFor, hcds, he] at hrow
      simp at hrow
    exact dlookup_addRow_ne m (rowShortname l) (pidOf l) (chunkOf l) c hne

theorem processLine_row (m : ChunkMap) (l : String) (m' : ChunkMap) (c : String)
    (h : processLine m l = .ok m') (hrow : rowFor c l = true) :
    m' = addRow m c (pidOf l) (chunkOf l) := by
  rcases processLine_ok_cases m l m' h with ⟨hno, rfl⟩ | ⟨hcds, _, rfl⟩
  · rw [rowFor, hno] at hrow
    simp at hrow
  · have hsn : rowShortname l = c := by
      rw [rowFor, hcds] at hrow
      simpa using hrow
    rw [hsn]

theorem parseGff3_dlookup (c : String) (lines : List String) :
    ∀ (m₀ m : ChunkMap), parseGff3 m₀ lines = .ok m →
      dlookup c m = (lines.filter (rowFor c)).foldl cGroupStep (dlookup c m₀) := by
  induction lines with
  | nil =>
    intro m₀ m h
    simp only [parseGff3, Except.ok.injEq] at h
    subst h
    rfl
  | cons l rest ih =>
    intro m₀ m h
    simp only [parseGff3, bind, Except.bind] at h
    cases hp : processLine m₀ l with
    | error e =>
      rw [hp] at h
      exact absurd h (by simp)
    | ok m₁ =>
      rw [hp] at h
      have hm := ih m₁ m h
      cases hrow : rowFor c l with
      | false =>
        rw [List.filter_cons, if_neg (by simp [hrow])]
        rw [hm, processLine_not_row m₀ l m₁ c hp hrow]
      | true =>
        have hm1 := processLine_row m₀ l m₁ c hp hrow
        subst hm1
        rw [List.filter_cons, if_pos (by simp [hrow]), List.foldl_cons]
        rw [hm, dlookup_addRow_self]
        rfl

theorem parseGff3_nodup (lines : List String) :
    ∀ (m₀ m : ChunkMap), parseGff3 m₀ lines = .ok m → (keysOf m₀).Nodup →
      (keysOf m).Nodup := by
  induction lines with
  | nil =>
    intro m₀ m h hnd
    simp only [parseGff3, Except.ok.injEq] at h
    subst h
    exact hnd
  | cons l rest ih =>
    intro m₀ m h hnd
    simp only [parseGff3, bind, Except.bind] at h
    cases hp : processLine m₀ l with
    | error e =>
      rw [hp] at h
      exact absurd h (by simp)
    | ok m₁ =>
      rw [hp] at h
      exact ih m₁ m h (processLine_nodup m₀ l m₁ hp hnd)

/-- C7: noninterference across contigs — two runs of `extract_cds_gff3`
that agree on contig `c`'s CDS annotation rows (in order) and on contig
`c`'s sequence, but may differ arbitrarily elsewhere, produce the same
outcome for `c` (the same concatenate, or absence in both). -/
theorem per_contig_noninterference
    (lines₁ lines₂ : List String) (nucl₁ nucl₂ : List (String × List Char))
    (c : String) (r₁ r₂ : List (String × List Char))
    (hrows : lines₁.filter (rowFor c) = lines₂.filter (rowFor c))
    (hseq : dlookup c nucl₁ = dlookup c nucl₂)
    (h₁ : extract_cds_gff3 lines₁ nucl₁ = .ok r₁)
    (h₂ : extract_cds_gff3 lines₂ nucl₂ = .ok r₂) :
    dlookup c r₁ = dlookup c r₂ := by
  unfold extract_cds_gff3 at h₁ h₂
  simp only [bind, Except.bind] at h₁ h₂
  cases hp₁ : parseGff3 [] lines₁ with
  | error e =>
    rw [hp₁] at h₁
    exact absurd h₁ (by simp)
  | ok m₁ =>
    rw [hp₁] at h₁
    cases hp₂ : parseGff3 [] lines₂ with
    | error e =>
      rw [hp₂] at h₂
      exact absurd h₂ (by simp)
    | ok m₂ =>
      rw [hp₂] at h₂
      have hnd₁ := parseGff3_nodup lines₁ [] m₁ hp₁ (by simp [keysOf])
      have hnd₂ := parseGff3_nodup lines₂ [] m₂ hp₂ (by simp [keysOf])
      have hr₁ := reconstructAll_ok nucl₁ m₁ [] r₁ h₁
      have hr₂ := reconstructAll_ok nucl₂ m₂ [] r₂ h₂
      simp only [List.nil_append] at hr₁ hr₂
      subst hr₁
      subst hr₂
      rw [dlookup_resultOf nucl₁ m₁ c hnd₁, dlookup_resultOf nucl₂ m₂ c hnd₂]
      have hm : dlookup c m₁ = dlookup c m₂ := by
        rw [parseGff3_dlookup c lines₁ [] m₁ hp₁, parseGff3_dlookup c lines₂ [] m₂ hp₂,
          hrows]
      rw [hm]
      unfold contigResult
      rw [hseq]

/-- Witness for C7: two runs differing in a second contig's row and
sequence agree on contig `c_1`'s concatenate. -/
theorem per_contig_noninterference_witness :
    dlookup "c_1" [("c_1", "AAAAAA".toList), ("c_2", "CCC".toList)] =
      dlookup "c_1" [("c_1", "AAAAAA".toList)] :=
  per_contig_noninterference
    ["c_1\ta\tCDS\t1\t6\t.\t+\t.\t.g1.", "c_2\ta\tCDS\t1\t3\t.\t+\t.\t.g1."]
    ["# note", "c_1\ta\tCDS\t1\t6\t.\t+\t.\t.g1."]
    [("c_1", "AAAAAA".toList), ("c_2", "CCC".toList)]
    [("c_1", "AAAAAA".toList)]
    "c_1"
    [("c_1", "AAAAAA".toList), ("c_2", "CCC".toList)]
    [("c_1", "AAAAAA".toList)]
    (by decide) (by decide) (by decide) (by decide)

/-- The effect of one line, independent of the accumulated `contig_chunks`:
an error, no action, or a `(shortname, pid, chunk)` record. -/
def lineAction (l : String) : Except GffErr (Option (String × String × CDSChunk)) :=
  match l.toList with
  | [] => .error .emptyLine
  | c :: _ =>
    if c = '#' then .ok none
    else if (fieldsOf l).length < 3 then .error .fewFields
    else if fld l 2 = "CDS" then
      if (fieldsOf l).length < 9 then .error .noAttrField
      else
        match searchG (fld l 8).toList with
        | none => .error .noGeneId
        | some pid => .ok (some (rowShortname l, pid, chunkOf l))
    else .ok none

theorem processLine_eq_lineAction (m : ChunkMap) (l : String) :
    processLine m l =
      match lineAction l with
      | .error e => .error e
      | .ok none => .ok m
      | .ok (some (sn, pid, ch)) => .ok (addRow m sn pid ch) := by
  unfold processLine lineAction
  cases hl : l.toList with
  | nil => rfl
  | cons c cs =>
    dsimp only
    split_ifs with hc h3 hcds h9
    · rfl
    · rfl
    · rfl
    · cases hs : searchG (fld l 8).toList <;> rfl
    · rfl

theorem processLine_error_indep (m : ChunkMap) (l : String) (e : GffErr) :
    processLine m l = .error e ↔ processLine [] l = .error e := by
  rw [processLine_eq_lineAction m l, processLine_eq_lineAction [] l]
  cases ha : lineAction l with
  | error e0 => exact Iff.rfl
  | ok a =>
    cases a with
    | none => simp
    | some t =>
      obtain ⟨sn, pid, ch⟩ := t
      simp

theorem string_eq_empty_of_toList_nil (l : String) (h : l.toList = []) : l = "" := by
  cases l with
  | mk data =>
    cases h
    rfl

theorem parseGff3_error_of_line (lines : List String) :
    ∀ (m₀ : ChunkMap) (l : String) (e : GffErr), l ∈ lines →
      processLine [] l = .error e → ∃ e', parseGff3 m₀ lines = .error e' := by
  induction lines with
  | nil =>
    intro m₀ l e h _
    exact absurd h (List.not_mem_nil l)
  | cons l₀ rest ih =>
    intro m₀ l e hmem herr
    simp only [parseGff3, bind, Except.bind]
    cases hp : processLine m₀ l₀ with
    | error e0 => exact ⟨e0, rfl⟩
    | ok m₁ =>
      rcases List.mem_cons.mp hmem with rfl | hmem'
      · have hcontra := (processLine_error_indep m₀ l e).mpr herr
        rw [hp] at hcontra
        exact absurd hcontra (by simp)
      · exact ih m₁ l e hmem' herr

theorem extract_error_of_parse (lines : List String) (nucl : List (String × List Char))
    (e : GffErr) (h : parseGff3 [] lines = .error e) :
    extract_cds_gff3 lines nucl = .error e := by
  unfold extract_cds_gff3
  simp only [bind, Except.bind]
  rw [h]

theorem parseGff3_error_line (lines : List String) :
    ∀ (m₀ : ChunkMap) (e : GffErr), parseGff3 m₀ lines = .error e →
      ∃ l ∈ lines, processLine [] l = .error e := by
  induction lines with
  | nil =>
    intro m₀ e h
    exact absurd h (by simp [parseGff3])
  | cons l₀ rest ih =>
    intro m₀ e h
    simp only [parseGff3, bind, Except.bind] at h
    cases hp : processLine m₀ l₀ with
    | error e0 =>
      rw [hp] at h
      have he : e0 = e := Except.error.inj h
      subst he
      exact ⟨l₀, List.mem_cons_self l₀ rest, (processLine_error_indep m₀ l₀ e0).mp hp⟩
    | ok m₁ =>
      rw [hp] at h
      obtain ⟨l, hl, herr⟩ := ih m₁ e h
      exact ⟨l, List.mem_cons_of_mem l₀ hl, herr⟩

theorem processLine_error_cases (l : String) (e : GffErr)
    (h : processLine [] l = .error e) :
    (e = .emptyLine ∧ l = "") ∨
    (e = .fewFields ∧ startsHash l = false ∧ (fieldsOf l).length < 3) ∨
    e = .noAttrField ∨ e = .noGeneId := by
  unfold processLine at h
  cases hl : l.toList with
  | nil =>
    rw [hl] at h
    exact Or.inl ⟨(Except.error.inj h).symm, string_eq_empty_of_toList_nil l hl⟩
  | cons c cs =>
    simp only [hl] at h
    by_cases hc : c = '#'
    · rw [if_pos hc] at h
      exact absurd h (by simp)
    · rw [if_neg hc] at h
      by_cases h3 : (fieldsOf l).length < 3
      · rw [if_pos h3] at h
        refine Or.inr (Or.inl ⟨(Except.error.inj h).symm, ?_, h3⟩)
        unfold startsHash
        simp only [hl]
        simpa using hc
      · rw [if_neg h3] at h
        by_cases hcds : fld l 2 = "CDS"
        · rw [if_pos hcds] at h
          by_cases h9 : (fieldsOf l).length < 9
          · rw [if_pos h9] at h
            exact Or.inr (Or.inr (Or.inl (Except.error.inj h).symm))
          · rw [if_neg h9] at h
            cases hs : searchG (fld l 8).toList with
            | none =>
              rw [hs] at h
              exact Or.inr (Or.inr (Or.inr (Except.error.inj h).symm))
            | some pid =>
              rw [hs] at h
              exact absurd h (by simp)
        · rw [if_neg hcds] at h
          exact absurd h (by simp)

theorem processLine_fewFields (l : String) (hne : l ≠ "") (hh : startsHash l = false)
    (h3 : (fieldsOf l).length < 3) : processLine [] l = .error .fewFields := by
  unfold processLine
  cases hl : l.toList with
  | nil => exact absurd (string_eq_empty_of_toList_nil l hl) hne
  | cons c cs =>
    have hc : ¬ c = '#' := by
      unfold startsHash at hh
      simp only [hl] at hh
      simpa using hh
    dsimp only
    rw [if_neg hc, if_pos h3]

theorem hasNonzeroChunk_appendChunk (pids : List (String × List CDSChunk))
    (pid : String) (ch : CDSChunk) :
    hasNonzeroChunk (appendChunk pids pid ch) =
      (hasNonzeroChunk pids || decide (ch.start ≠ ch.stop)) := by
  induction pids with
  | nil => simp [hasNonzeroChunk, appendChunk]
  | cons p rest ih =>
    obtain ⟨q, cs⟩ := p
    by_cases hq : q = pid
    · simp only [appendChunk, if_pos hq]
      simp [hasNonzeroChunk, List.any_cons, List.any_append, Bool.or_assoc,
        Bool.or_comm, Bool.or_left_comm]
    · simp only [appendChunk, if_neg hq]
      simp only [hasNonzeroChunk, List.any_cons] at ih ⊢
      rw [ih, Bool.or_assoc]

theorem optBad_cGroupStep (g : Option (List (String × List CDSChunk))) (l : String) :
    optBad (cGroupStep g l) =
      (optBad g || decide ((chunkOf l).start ≠ (chunkOf l).stop)) := by
  cases g with
  | none =>
    show hasNonzeroChunk (appendChunk [] (pidOf l) (chunkOf l)) =
      (false || decide ((chunkOf l).start ≠ (chunkOf l).stop))
    rw [hasNonzeroChunk_appendChunk]
    rfl
  | some pids =>
    show hasNonzeroChunk (appendChunk pids (pidOf l) (chunkOf l)) =
      (hasNonzeroChunk pids || decide ((chunkOf l).start ≠ (chunkOf l).stop))
    exact hasNonzeroChunk_appendChunk pids _ _

theorem optBad_foldl_true (ls : List String) :
    ∀ g, optBad g = true → optBad (ls.foldl cGroupStep g) = true := by
  induction ls with
  | nil => intro g h; exact h
  | cons l rest ih =>
    intro g h
    rw [List.foldl_cons]
    exact ih _ (by rw [optBad_cGroupStep, h, Bool.true_or])

theorem optBad_foldl_of_mem (ls : List String) :
    ∀ (g : Option (List (String × List CDSChunk))) (l : String), l ∈ ls →
      (chunkOf l).start ≠ (chunkOf l).stop →
      optBad (ls.foldl cGroupStep g) = true := by
  induction ls with
  | nil =>
    intro g l h _
    exact absurd h (List.not_mem_nil l)
  | cons l₀ rest ih =>
    intro g l hmem hbad
    rw [List.foldl_cons]
    rcases List.mem_cons.mp hmem with rfl | hmem'
    · apply optBad_foldl_true rest
      rw [optBad_cGroupStep]
      simp [hbad]
    · exact ih _ l hmem' hbad

theorem dlookup_mem {β : Type} (k : String) (m : List (String × β)) (v : β)
    (h : dlookup k m = some v) : (k, v) ∈ m := by
  induction m with
  | nil => exact absurd h (by simp [dlookup])
  | cons e rest ih =>
    obtain ⟨k', v'⟩ := e
    by_cases hk : k' = k
    · subst hk
      have hv : v' = v := by
        have h' : (if k' = k' then some v' else dlookup k' rest) = some v := h
        rw [if_pos rfl] at h'
        exact Option.some.inj h'
      subst hv
      exact List.mem_cons_self _ _
    · have h' : (if k' = k then some v' else dlookup k rest) = some v := h
      rw [if_neg hk] at h'
      exact List.mem_cons_of_mem _ (ih h')

theorem processChunk_zero (sn : String) (seq? : Option (List Char)) (ch : CDSChunk)
    (h : ch.start = ch.stop) : processChunk sn seq? ch = .ok [] := by
  unfold processChunk
  rw [if_pos h]

theorem processChunk_none_error (sn : String) (ch : CDSChunk)
    (h : ¬ ch.start = ch.stop) :
    processChunk sn none ch = .error (.missingContig sn) := by
  unfold processChunk
  rw [if_neg h]

theorem geneCds_all_zero (sn : String) (seq? : Option (List Char))
    (chunks : List CDSChunk) (hall : ∀ ch ∈ chunks, ch.start = ch.stop) :
    ∀ acc, geneCds sn seq? acc chunks = .ok acc := by
  induction chunks with
  | nil => intro acc; rfl
  | cons ch rest ih =>
    intro acc
    simp only [geneCds, bind, Except.bind]
    rw [processChunk_zero sn seq? ch (hall ch (List.mem_cons_self ch rest))]
    dsimp only
    rw [List.append_nil]
    exact ih (fun c hc => hall c (List.mem_cons_of_mem ch hc)) acc

theorem geneCds_none_error (sn : String) (chunks : List CDSChunk)
    (h : chunks.any (fun ch => decide (ch.start ≠ ch.stop)) = true) :
    ∀ acc, ∃ e, geneCds sn none acc chunks = .error e := by
  induction chunks with
  | nil => simp at h
  | cons ch rest ih =>
    intro acc
    by_cases h0 : ch.start = ch.stop
    · have hr : rest.any (fun c => decide (c.start ≠ c.stop)) = true := by
        simpa [List.any_cons, h0] using h
      simp only [geneCds, bind, Except.bind]
      rw [processChunk_zero sn none ch h0]
      exact ih hr (acc ++ [])
    · refine ⟨.missingContig sn, ?_⟩
      simp only [geneCds, bind, Except.bind]
      rw [processChunk_none_error sn ch h0]

theorem contigCat_none_error (sn : String) (pids : List (String × List CDSChunk))
    (h : hasNonzeroChunk pids = true) :
    ∀ acc, ∃ e, contigCat sn none acc pids = .error e := by
  induction pids with
  | nil => simp [hasNonzeroChunk] at h
  | cons p rest ih =>
    obtain ⟨pid, chunks⟩ := p
    intro acc
    by_cases hc : chunks.any (fun ch => decide (ch.start ≠ ch.stop)) = true
    · obtain ⟨e, he⟩ := geneCds_none_error sn chunks hc []
      refine ⟨e, ?_⟩
      simp only [contigCat, bind, Except.bind]
      rw [he]
    · have hall : ∀ ch ∈ chunks, ch.start = ch.stop := by
        intro ch hch
        by_contra hne
        exact hc (List.any_eq_true.mpr ⟨ch, hch, by simpa using hne⟩)
      have hrest : hasNonzeroChunk rest = true := by
        have := h
        simp only [hasNonzeroChunk, List.any_cons] at this
        rcases Bool.or_eq_true_iff.mp this with hbad | hgood
        · exact absurd hbad hc
        · exact hgood
      obtain ⟨e, he⟩ := ih hrest (if ([] : List Char).length % 3 = 0 then acc ++ [] else acc)
      refine ⟨e, ?_⟩
      simp only [contigCat, bind, Except.bind]
      rw [geneCds_all_zero sn none chunks hall []]
      exact he

theorem reconstructAll_error_of_entry (nucl : List (String × List Char)) (m : ChunkMap) :
    ∀ acc, (∃ p ∈ m, ∃ e, contigCat p.1 (dlookup p.1 nucl) [] p.2 = .error e) →
      ∃ e', reconstructAll nucl acc m = .error e' := by
  induction m with
  | nil =>
    intro acc h
    obtain ⟨p, hp, _⟩ := h
    exact absurd hp (List.not_mem_nil p)
  | cons q rest ih =>
    intro acc h
    obtain ⟨p, hp, e, he⟩ := h
    obtain ⟨sn, pids⟩ := q
    simp only [reconstructAll, bind, Except.bind]
    cases hc : contigCat sn (dlookup sn nucl) [] pids with
    | error e0 => exact ⟨e0, rfl⟩
    | ok cat =>
      rcases List.mem_cons.mp hp with rfl | hp'
      · rw [hc] at he
        exact absurd he (by simp)
      · exact ih _ ⟨p, hp', e, he⟩

theorem reconstructAll_error_cases (nucl : List (String × List Char)) (m : ChunkMap) :
    ∀ acc e, reconstructAll nucl acc m = .error e →
      ∃ p ∈ m, contigCat p.1 (dlookup p.1 nucl) [] p.2 = .error e := by
  induction m with
  | nil =>
    intro acc e h
    exact absurd h (by simp [reconstructAll])
  | cons q rest ih =>
    intro acc e h
    obtain ⟨sn, pids⟩ := q
    simp only [reconstructAll, bind, Except.bind] at h
    cases hc : contigCat sn (dlookup sn nucl) [] pids with
    | error e0 =>
      rw [hc] at h
      have he : e0 = e := Except.error.inj h
      subst he
      exact ⟨(sn, pids), List.mem_cons_self _ _, hc⟩
    | ok cat =>
      rw [hc] at h
      obtain ⟨p, hp, hpe⟩ := ih _ e h
      exact ⟨p, List.mem_cons_of_mem _ hp, hpe⟩

theorem geneCds_error_chunk (sn : String) (seq? : Option (List Char))
    (chunks : List CDSChunk) :
    ∀ acc e, geneCds sn seq? acc chunks = .error e →
      ∃ ch, processChunk sn seq? ch = .error e := by
  induction chunks with
  | nil =>
    intro acc e h
    exact absurd h (by simp [geneCds])
  | cons ch rest ih =>
    intro acc e h
    simp only [geneCds, bind, Except.bind] at h
    cases hp : processChunk sn seq? ch with
    | error e0 =>
      rw [hp] at h
      have : e0 = e := Except.error.inj h
      subst this
      exact ⟨ch, hp⟩
    | ok s =>
      rw [hp] at h
      exact ih _ e h

theorem contigCat_error_chunk (sn : String) (seq? : Option (List Char))
    (pids : List (String × List CDSChunk)) :
    ∀ acc e, contigCat sn seq? acc pids = .error e →
      ∃ ch, processChunk sn seq? ch = .error e := by
  induction pids with
  | nil =>
    intro acc e h
    exact absurd h (by simp [contigCat])
  | cons p rest ih =>
    obtain ⟨pid, chunks⟩ := p
    intro acc e h
    simp only [contigCat, bind, Except.bind] at h
    cases hg : geneCds sn seq? [] chunks with
    | error e0 =>
      rw [hg] at h
      have : e0 = e := Except.error.inj h
      subst this
      exact geneCds_error_chunk sn seq? chunks [] e0 hg
    | ok g =>
      rw [hg] at h
      exact ih _ e h

theorem processChunk_error_cases (sn : String) (seq? : Option (List Char))
    (ch : CDSChunk) (e : GffErr) (h : processChunk sn seq? ch = .error e) :
    (e = .missingContig sn ∧ seq? = none) ∨ ∃ t, e = .badInt t := by
  unfold processChunk at h
  by_cases h0 : ch.start = ch.stop
  · rw [if_pos h0] at h
    exact absurd h (by simp)
  · rw [if_neg h0] at h
    cases seq? with
    | none => exact Or.inl ⟨(Except.error.inj h).symm, rfl⟩
    | some s =>
      dsimp only at h
      cases ha : pyInt ch.start with
      | none =>
        rw [ha] at h
        exact Or.inr ⟨ch.start, (Except.error.inj h).symm⟩
      | some a =>
        rw [ha] at h
        cases hb : pyInt ch.stop with
        | none =>
          rw [hb] at h
          exact Or.inr ⟨ch.stop, (Except.error.inj h).symm⟩
        | some b =>
          rw [hb] at h
          exact absurd h (by simp)

theorem parseGff3_keys (lines : List String) :
    ∀ (m₀ m : ChunkMap), parseGff3 m₀ lines = .ok m → ∀ k, k ∈ keysOf m →
      k ∈ keysOf m₀ ∨ ∃ l ∈ lines, isCDSRow l = true ∧ rowShortname l = k := by
  induction lines with
  | nil =>
    intro m₀ m h k hk
    simp only [parseGff3, Except.ok.injEq] at h
    subst h
    exact Or.inl hk
  | cons l₀ rest ih =>
    intro m₀ m h k hk
    simp only [parseGff3, bind, Except.bind] at h
    cases hp : processLine m₀ l₀ with
    | error e =>
      rw [hp] at h
      exact absurd h (by simp)
    | ok m₁ =>
      rw [hp] at h
      rcases ih m₁ m h k hk with hk₁ | ⟨l, hl, hrow⟩
      · rcases processLine_ok_cases m₀ l₀ m₁ hp with ⟨_, rfl⟩ | ⟨hcds, _, rfl⟩
        · exact Or.inl hk₁
        · rw [keysOf_addRow] at hk₁
          by_cases hm : rowShortname l₀ ∈ keysOf m₀
          · rw [if_pos hm] at hk₁
            exact Or.inl hk₁
          · rw [if_neg hm] at hk₁
            rcases List.mem_append.mp hk₁ with hin | hone
            · exact Or.inl hin
            · have hks : k = rowShortname l₀ := by simpa using hone
              exact Or.inr ⟨l₀, List.mem_cons_self l₀ rest, hcds, hks.symm⟩
      · exact Or.inr ⟨l, List.mem_cons_of_mem l₀ hl, hrow⟩

/-- C10 (amended): `extract_cds_gff3` raises (rather than reporting a
pipeline error) on an empty annotation line, on a non-comment line with
fewer than three tab-separated fields, and on a CDS row whose start text
differs from its end text and whose contig shortname is absent from the
rekeyed sequence collection (a CDS row all of whose fragments are
zero-length never reaches the lookup, so absence alone does not raise);
under the precondition that no such input occurs, none of these three
error branches is reachable. -/
theorem unstated_preconditions :
    (∀ (lines : List String) (nucl : List (String × List Char)),
      "" ∈ lines → ∃ e, extract_cds_gff3 lines nucl = .error e) ∧
    (∀ (lines : List String) (nucl : List (String × List Char)) (l : String),
      l ∈ lines → l ≠ "" → startsHash l = false → (fieldsOf l).length < 3 →
      ∃ e, extract_cds_gff3 lines nucl = .error e) ∧
    (∀ (lines : List String) (nucl : List (String × List Char)) (l : String),
      l ∈ lines → isCDSRow l = true →
      (chunkOf l).start ≠ (chunkOf l).stop →
      dlookup (rowShortname l) nucl = none →
      ∃ e, extract_cds_gff3 lines nucl = .error e) ∧
    (∀ (lines : List String) (nucl : List (String × List Char)),
      (∀ l ∈ lines, l ≠ "") →
      (∀ l ∈ lines, startsHash l = false → 3 ≤ (fieldsOf l).length) →
      (∀ l ∈ lines, isCDSRow l = true →
        (dlookup (rowShortname l) nucl).isSome = true) →
      ∀ e, extract_cds_gff3 lines nucl = .error e →
        e ≠ .emptyLine ∧ e ≠ .fewFields ∧ ∀ s, e ≠ .missingContig s) := by
  refine ⟨?_, ?_, ?_, ?_⟩
  · intro lines nucl hmem
    obtain ⟨e, he⟩ := parseGff3_error_of_line lines [] "" .emptyLine hmem rfl
    exact ⟨e, extract_error_of_parse lines nucl e he⟩
  · intro lines nucl l hl hne hsh hlen
    obtain ⟨e, he⟩ := parseGff3_error_of_line lines [] l .fewFields hl
      (processLine_fewFields l hne hsh hlen)
    exact ⟨e, extract_error_of_parse lines nucl e he⟩
  · intro lines nucl l hl hcds hbad hnone
    cases hp : parseGff3 [] lines with
    | error e => exact ⟨e, extract_error_of_parse lines nucl e hp⟩
    | ok m =>
      have hlk := parseGff3_dlookup (rowShortname l) lines [] m hp
      have hfold : optBad ((lines.filter (rowFor (rowShortname l))).foldl cGroupStep
          (dlookup (rowShortname l) [])) = true :=
        optBad_foldl_of_mem _ _ l
          (List.mem_filter.mpr ⟨hl, by simp [rowFor, hcds]⟩) hbad
      rw [← hlk] at hfold
      cases hdl : dlookup (rowShortname l) m with
      | none =>
        rw [hdl] at hfold
        exact absurd hfold (by simp [optBad])
      | some pids =>
        rw [hdl] at hfold
        obtain ⟨e, he⟩ := contigCat_none_error (rowShortname l) pids hfold []
        have hentry : ∃ p ∈ m, ∃ e,
            contigCat p.1 (dlookup p.1 nucl) [] p.2 = .error e := by
          refine ⟨(rowShortname l, pids), dlookup_mem _ m pids hdl, e, ?_⟩
          show contigCat (rowShortname l) (dlookup (rowShortname l) nucl) [] pids =
            .error e
          rw [hnone]
          exact he
        obtain ⟨e', he'⟩ := reconstructAll_error_of_entry nucl m [] hentry
        refine ⟨e', ?_⟩
        unfold extract_cds_gff3
        simp only [bind, Except.bind]
        rw [hp]
        exact he'
  · intro lines nucl h1 h2 h3 e hext
    unfold extract_cds_gff3 at hext
    simp only [bind, Except.bind] at hext
    cases hp : parseGff3 [] lines with
    | error e0 =>
      rw [hp] at hext
      have he0 : e0 = e := Except.error.inj hext
      subst he0
      obtain ⟨l, hl, herr⟩ := parseGff3_error_line lines [] e0 hp
      rcases processLine_error_cases l e0 herr with
        ⟨_, hempty⟩ | ⟨_, hsh, hlen⟩ | he | he
      · exact absurd hempty (h1 l hl)
      · have := h2 l hl hsh
        omega
      · subst he
        exact ⟨by simp, by simp, fun s => by simp⟩
      · subst he
        exact ⟨by simp, by simp, fun s => by simp⟩
    | ok m =>
      rw [hp] at hext
      obtain ⟨p, hpm, hpe⟩ := reconstructAll_error_cases nucl m [] e hext
      obtain ⟨ch, hch⟩ := contigCat_error_chunk p.1 (dlookup p.1 nucl) p.2 [] e hpe
      rcases processChunk_error_cases p.1 (dlookup p.1 nucl) ch e hch with
        ⟨he, hnone⟩ | ⟨t, ht⟩
      · have hkm : p.1 ∈ keysOf m := List.mem_map.mpr ⟨p, hpm, rfl⟩
        rcases parseGff3_keys lines [] m hp p.1 hkm with hk0 | ⟨l, hl, hrow, hsn⟩
        · exact absurd hk0 (by simp [keysOf])
        · have hsome := h3 l hl hrow
          rw [hsn, hnone] at hsome
          simp at hsome
      · subst ht
        exact ⟨by simp, by simp, fun s => by simp⟩

/-- Witness for C10 (amended), applying each part at a concrete input:
an empty line raises, a short line raises, a CDS row with a nonzero
fragment and an absent contig raises, and a run whose only failure is a
non-numeric coordinate raises neither of the three excluded errors. -/
theorem unstated_preconditions_witness :
    (∃ e, extract_cds_gff3 [""] [] = .error e) ∧
    (∃ e, extract_cds_gff3 ["ab"] [] = .error e) ∧
    (∃ e, extract_cds_gff3 ["c_1\ta\tCDS\t4\t6\t.\t+\t.\t.g1."] [] = .error e) ∧
    ((GffErr.badInt "x") ≠ .emptyLine ∧ (GffErr.badInt "x") ≠ .fewFields ∧
      ∀ s, (GffErr.badInt "x") ≠ .missingContig s) :=
  ⟨unstated_preconditions.1 [""] [] (by decide),
   unstated_preconditions.2.1 ["ab"] [] "ab" (by decide) (by decide) (by decide)
     (by decide),
   unstated_preconditions.2.2.1 ["c_1\ta\tCDS\t4\t6\t.\t+\t.\t.g1."] []
     "c_1\ta\tCDS\t4\t6\t.\t+\t.\t.g1." (by decide) (by decide) (by decide) rfl,
   unstated_preconditions.2.2.2 ["c_1\ta\tCDS\tx\t6\t.\t+\t.\t.g1."]
     [("c_1", "AAAAAA".toList)] (by decide) (by decide) (by decide)
     (GffErr.badInt "x") (by decide)⟩

/-- Counterexample for C10 as stated: a CDS row whose contig shortname is
absent from the sequence collection does not raise when the row's only
fragment is zero-length — the skip at line 153 precedes the lookup at line
157, so `extract_cds_gff3` returns an (empty) result instead of raising. -/
theorem unstated_preconditions_counterexample :
    dlookup "c_1" ([] : List (String × List Char)) = none ∧
    extract_cds_gff3 ["c_1\taug\tCDS\t5\t5\t.\t+\t.\t.g1."]
      ([] : List (String × List Char)) = .ok [] := by
  constructor <;> decide
